import Mathlib

set_option maxRecDepth 4000

/-!
Verification development for the `mcom` multi-channel framed multiplexing
library (Python reference implementation, files `mcom/__init__.py` and
`mcom/mqueue.py`).

The Python code is shallowly embedded below: byte strings become `List Nat`
(each element a byte value), Python's unbounded `int` becomes `Nat`/`Int`,
exceptions (`Full`, `Empty`, `AssertionError`, `OverflowError`, `IndexError`,
`KeyError`, `AttributeError`) become an explicit error type threaded through
`Except`/`Option`, and the mutable objects (`Channel.Buf`, `MQueue`,
`MQueuePool`, `Channel`) become immutable state records with operations
returning updated states.  Concurrency is modelled sequentially: an
`Event.wait` that no other thread can satisfy is treated as returning with
the state unchanged (the single-threaded / timeout-elapsed execution).
-/

/-- Errors corresponding to the Python exceptions that the embedded code can
raise.  `wouldBlock` marks a queue operation that would suspend forever in the
sequential model (blocking `get` on an empty queue). -/
inductive PyErr where
  | full
  | empty
  | keyError
  | assertionFailed
  | overflowError
  | indexError
  | attributeError
  | wouldBlock
deriving DecidableEq

/-- Little-endian value of a byte list, Python `int.from_bytes(bs, 'little')`. -/
def fromBytesLE : List Nat → Nat
  | [] => 0
  | b :: rest => b + 256 * fromBytesLE rest

/-- Little-endian byte list of width `w`, Python `n.to_bytes(w, 'little')`;
callers guarantee `n < 256 ^ w` (Python raises `OverflowError` otherwise). -/
def natToBytesLE : Nat → Nat → List Nat
  | 0, _ => []
  | w + 1, n => n % 256 :: natToBytesLE w (n / 256)

/-- Python `int.from_bytes(bs, 'little', signed=True)`: two's-complement
interpretation of a little-endian byte list. -/
def fromBytesSLE (bs : List Nat) : Int :=
  if 2 * fromBytesLE bs ≥ 256 ^ bs.length then
    (fromBytesLE bs : Int) - 256 ^ bs.length
  else
    (fromBytesLE bs : Int)

/-- Python `int.bit_length`, written with explicit fuel so that the definition
is structural (the recursion halves `n`, so any `fuel ≥ n` gives the same
answer; `bitLength` below instantiates `fuel := n`). -/
def bitLengthAux : Nat → Nat → Nat
  | 0, _ => 0
  | fuel + 1, n => if n = 0 then 0 else bitLengthAux fuel (n / 2) + 1

/-- Python `int.bit_length : the number of binary digits of `n` (0 for 0). -/
def bitLength (n : Nat) : Nat := bitLengthAux n n

/-- `Utils.ceildiv`: ceiling division, Python `-(-a // b)`. -/
def ceildiv (a b : Nat) : Nat := (a + b - 1) / b

namespace MCom

namespace Frame

/-- `Frame.DATA_UNIT_SIZE()`: size of data units exchanged with the driver. -/
def DATA_UNIT_SIZE : Nat := 4

/-- `Frame.SMALL_FRAME_HEADER_SIZE()`. -/
def SMALL_FRAME_HEADER_SIZE : Nat := 1

/-- `Frame.LARGE_FRAME_HEADER_SIZE()`. -/
def LARGE_FRAME_HEADER_SIZE : Nat := 2

/-- `Frame.LARGE_FRAME_FIRST_DATA_UNIT_SIZE()`. -/
def LARGE_FRAME_FIRST_DATA_UNIT_SIZE : Nat := 2

/-- `Frame.LARGE_FRAME_MIN_DATA_SIZE()`. -/
def LARGE_FRAME_MIN_DATA_SIZE : Nat := 4

/-- `Frame.MAX_DATA_SIZE()`: `255 + LARGE_FRAME_MIN_DATA_SIZE()`. -/
def MAX_DATA_SIZE : Nat := 255 + LARGE_FRAME_MIN_DATA_SIZE

end Frame

/-- The state of a `MCom.Frame` object after `__init__` ran: the constructor
arguments `_chan` and `_data_size`, the computed `_small_frame_size`, and the
encoded `_bytes` (header, payload, zero padding). -/
structure Frame where
  chan : Nat
  data_size : Nat
  small_frame_size : Nat
  bytes : List Nat
deriving DecidableEq

namespace Frame

/-- `Frame.__init__(chan=chan, data=data)`.  Returns `none` when one of the
constructor's `assert` statements fails (`chan < 64`,
`data_size < MAX_DATA_SIZE()`). -/
def mkFrame (chan : Nat) (data : List Nat) : Option Frame :=
  if chan < 64 then
    if data.length < MAX_DATA_SIZE then
      -- large_frame_size_field = data_size - LARGE_FRAME_MIN_DATA_SIZE
      let large_frame_size_field : Int :=
        (data.length : Int) - (LARGE_FRAME_MIN_DATA_SIZE : Int)
      let small_frame_size := if 0 ≤ large_frame_size_field then 0 else data.length
      -- byte0 = (small_frame_size << 6) | chan
      let byte0 := (small_frame_size <<< 6) ||| chan
      let header :=
        if 0 ≤ large_frame_size_field then
          [byte0, data.length - LARGE_FRAME_MIN_DATA_SIZE]
        else [byte0]
      let body := header ++ data
      -- padlen = len % DATA_UNIT_SIZE; if padlen: padlen = DATA_UNIT_SIZE - padlen
      let padlen0 := body.length % DATA_UNIT_SIZE
      let padlen := if padlen0 ≠ 0 then DATA_UNIT_SIZE - padlen0 else 0
      some { chan := chan, data_size := data.length,
             small_frame_size := small_frame_size,
             bytes := body ++ List.replicate padlen 0 }
    else none
  else none

/-- Property `Frame.is_large`: `0 == self._small_frame_size`. -/
def is_large (f : Frame) : Bool := f.small_frame_size == 0

/-- Property `Frame.size`. -/
def size (f : Frame) : Nat := f.bytes.length

/-- Property `Frame.size_data_unit` (`_ndu`). -/
def size_data_unit (f : Frame) : Nat := f.bytes.length / DATA_UNIT_SIZE

/-- Property `Frame.data`: the payload sliced back out of `_bytes`. -/
def data (f : Frame) : List Nat :=
  let base := if f.is_large then LARGE_FRAME_HEADER_SIZE else SMALL_FRAME_HEADER_SIZE
  (f.bytes.drop base).take f.data_size

end Frame

/-- The state of a `MCom.AckFrame` (when `ins = 0`) or `MCom.ResumeFrame`
(when `ins = 1`) object: the `_ackchan` and `_buf_level` fields plus the
underlying encoded frame. -/
structure AckFrame where
  ins : Nat
  ackchan : Int
  buf_level : Int
  frame : Frame
deriving DecidableEq

namespace AckFrame

/-- `AckFrame.INS`. -/
def INS : Nat := 0x00

end AckFrame

namespace ResumeFrame

/-- `ResumeFrame.INS`. -/
def INS : Nat := 0x01

end ResumeFrame

/-- `AckFrame.__init__(ackchan=..., buf_level=...)` (shared by `ResumeFrame`,
whose only difference is `INS`).  Python computes
`buf_level = (buf_level << 6) | ackchan` on unbounded ints; for the reachable
arguments `0 ≤ ackchan < 64` the two's-complement or with the disjoint low six
bits equals `64 * buf_level + ackchan`, which is how it is written here.
`to_bytes(2, 'little', signed=True)` raises `OverflowError` outside
`[-2^15, 2^15)`, hence the `none` case. -/
def mkAckLikeFrame (ins : Nat) (ackchan : Int) (buf_level : Int) :
    Option AckFrame :=
  let v : Int := 64 * buf_level + ackchan
  if v < -(2 ^ 15) ∨ (2 ^ 15 : Int) ≤ v then none
  else
    -- two's-complement little-endian encoding of v on 2 bytes (v mod 2^16)
    let w := (v % 65536).toNat
    let dataBytes := [ins, w % 256, w / 256]
    (Frame.mkFrame 0 dataBytes).map fun f =>
      { ins := ins, ackchan := ackchan, buf_level := buf_level, frame := f }

namespace ChanListReqFrame

/-- `ChanListReqFrame.INS`. -/
def INS : Nat := 0x02

end ChanListReqFrame

/-- `ChanListReqFrame.__init__()`: a channel-0 frame whose payload is just the
`INS` byte. -/
def mkChanListReqFrame : Option Frame :=
  Frame.mkFrame 0 [ChanListReqFrame.INS]

/-- The state of a `MCom.ChanListFrame` object: the `_open_channels_nums`
field plus the underlying encoded frame. -/
structure ChanListFrame where
  open_channels_nums : List Nat
  frame : Frame
deriving DecidableEq

namespace ChanListFrame

/-- `ChanListFrame.INS`. -/
def INS : Nat := 0x03

end ChanListFrame

/-- The bitmap built by `ChanListFrame.__init__`:
`binlist |= 1 << chan_num` over the open channel numbers. -/
def chanBinlist (open_channels_nums : List Nat) : Nat :=
  open_channels_nums.foldl (fun binlist chan_num => binlist ||| (1 <<< chan_num)) 0

/-- `ChanListFrame.__init__(open_channels_nums=...)`: payload is `INS`
followed by the little-endian bitmap, sized with
`Utils.ceildiv(binlist.bit_length(), 8)`. -/
def mkChanListFrame (open_channels_nums : List Nat) : Option ChanListFrame :=
  let binlist := chanBinlist open_channels_nums
  let sz := ceildiv (bitLength binlist) 8
  let dataBytes := ChanListFrame.INS :: natToBytesLE sz binlist
  (Frame.mkFrame 0 dataBytes).map fun f =>
    { open_channels_nums := open_channels_nums, frame := f }

/-- The bit-extraction loop of `ChanListFrame.from_bytes`:
`while binlist: chan_num = binlist.bit_length() - 1; binlist ^= 1 << chan_num`.
Fuel-structured: every iteration clears the top set bit of `binlist`, so its
bit length strictly decreases and `fuel := bitLength n` (used by `chanBits`)
bounds the number of iterations. -/
def chanBitsAux : Nat → Nat → List Nat
  | 0, _ => []
  | fuel + 1, n =>
    if n = 0 then []
    else
      let chan_num := bitLength n - 1
      chan_num :: chanBitsAux fuel (n ^^^ (1 <<< chan_num))

/-- The `open_channels_nums` list reconstructed by `ChanListFrame.from_bytes`
from a bitmap (top bit first, as in the Python loop). -/
def chanBits (n : Nat) : List Nat := chanBitsAux (bitLength n) n

/-- `AckFrame.from_bytes` (a classmethod: `ResumeFrame.from_bytes` is the same
code with `cls.INS = 1`).  The three `assert` statements guard the frame
length, byte 0 (`0xC0`) and the `INS` byte; `none` models their failure. -/
def ackFrameFromBytes (ins : Nat) (frame : List Nat) : Option AckFrame :=
  if frame.length = Frame.DATA_UNIT_SIZE ∧ frame.headD 0 = 0xC0 ∧
      frame.getD 1 0 = ins then
    let v := fromBytesSLE (frame.drop 2)
    -- ackchan = buf_level & 0x3F : two's-complement and with 63 is mod 64
    let ackchan := v % 64
    -- buf_level = buf_level >> 6 : arithmetic shift is floor division by 64
    let buf_level := v / 64
    mkAckLikeFrame ins ackchan buf_level
  else none

/-- `ChanListReqFrame.from_bytes`. -/
def chanListReqFrameFromBytes (frame : List Nat) : Option Frame :=
  if frame.length = Frame.DATA_UNIT_SIZE ∧ frame.headD 0 = 0x40 ∧
      frame.getD 1 0 = ChanListReqFrame.INS then
    mkChanListReqFrame
  else none

/-- `ChanListFrame.from_bytes`: picks the header size from byte 0, checks the
`INS` byte (`frame[header_size]`, an `IndexError` when out of range), then
rebuilds the channel list from the little-endian bitmap in the remainder. -/
def chanListFrameFromBytes (frame : List Nat) : Option ChanListFrame :=
  let header_size :=
    if frame.headD 0 ≠ 0 then Frame.SMALL_FRAME_HEADER_SIZE
    else Frame.LARGE_FRAME_HEADER_SIZE
  if header_size < frame.length ∧ frame.getD header_size 0 = ChanListFrame.INS then
    let binlist := fromBytesLE (frame.drop (header_size + 1))
    mkChanListFrame (chanBits binlist)
  else none

/-- The result of `MCom.Frame.from_bytes`: one of the five frame classes the
dispatcher can return. -/
inductive Decoded where
  | dataF : Frame → Decoded
  | ackF : AckFrame → Decoded
  | resumeF : AckFrame → Decoded
  | chanListReqF : Frame → Decoded
  | chanListF : ChanListFrame → Decoded
deriving DecidableEq

/-- `MCom.Frame.from_bytes(frame)`.  Byte 0 yields `small_frame_size` (top two
bits) and `chan` (low six bits); channel 0 dispatches on the `INS` byte of the
payload, while a data channel reslices the payload (`frame[1] + 4` bytes for a
large frame) and rebuilds a `Frame`.  `none` models the raised exceptions
(`IndexError` on short input, unknown `INS`, and the constructors' asserts). -/
def fromBytes (frame : List Nat) : Option Decoded :=
  let byte0 := frame.headD 0
  let small_frame_size := byte0 >>> 6
  let chan := byte0 &&& 0x3F
  let is_large := small_frame_size = 0
  let dataSlice :=
    if is_large then frame.drop Frame.LARGE_FRAME_HEADER_SIZE
    else frame.drop Frame.SMALL_FRAME_HEADER_SIZE
  if chan = 0 then
    match dataSlice.head? with
    | none => none
    | some d0 =>
      if d0 = AckFrame.INS then (ackFrameFromBytes AckFrame.INS frame).map .ackF
      else if d0 = ResumeFrame.INS then
        (ackFrameFromBytes ResumeFrame.INS frame).map .resumeF
      else if d0 = ChanListReqFrame.INS then
        (chanListReqFrameFromBytes frame).map .chanListReqF
      else if d0 = ChanListFrame.INS then
        (chanListFrameFromBytes frame).map .chanListF
      else none
  else
    let size? : Option Nat :=
      if is_large then (frame[1]?).map (· + Frame.LARGE_FRAME_MIN_DATA_SIZE)
      else some small_frame_size
    match size? with
    | none => none
    | some sz => (Frame.mkFrame chan (dataSlice.take sz)).map .dataF

end MCom

/-- State of a `mcom.mqueue.MQueuePool`: the `with_new_dat` set (kept as an
insertion-ordered duplicate-free list; Python's `set.pop` removes an arbitrary
element, modelled here as the first) and the `threading.Event` flag `e`.
Elements are the identities (`MQueue.id`, i.e. channel numbers) of the posted
queues; `none` is the `None` shutdown sentinel. -/
structure MQueuePool where
  with_new_dat : List (Option Nat)
  e : Bool
deriving DecidableEq

/-- `MQueuePool.__init__`: empty set, cleared event. -/
def mkMQueuePool : MQueuePool := { with_new_dat := [], e := false }

namespace MQueuePool

/-- `MQueuePool.put(q)`: add to the set (no duplicates) and set the event. -/
def put (p : MQueuePool) (q : Option Nat) : MQueuePool :=
  { with_new_dat := if q ∈ p.with_new_dat then p.with_new_dat
                    else p.with_new_dat ++ [q],
    e := true }

/-- `MQueuePool.get_queue(block, timeout)`.  If the set is non-empty: clear
the event, pop and return.  Otherwise Python waits on the event when `block`
is true; sequentially no other thread can set it, so the wait returns (after
a timeout, or not at all — both leave the state unchanged), and `not
e.isSet()` raises `Empty`.  The remaining branch (`e` set but set empty) would
`pop` from an empty set, a `KeyError`. -/
def get_queue (p : MQueuePool) (_block : Bool) :
    Except PyErr (Option Nat × MQueuePool) :=
  match p.with_new_dat with
  | q :: rest => .ok (q, { with_new_dat := rest, e := false })
  | [] => if p.e then .error .keyError else .error .empty

end MQueuePool

/-- State of a `mcom.mqueue.MQueue`: the queued items, the bound `maxsize`
(`0` meaning unbounded, as for `queue.Queue`), the optional pool it posts to
and its identifier (the owning channel's number; `none` until assigned). -/
structure MQueue where
  items : List Nat
  maxsize : Nat
  pool : Option MQueuePool
  id : Option Nat
deriving DecidableEq

namespace MQueue

/-- `MQueue.put_nowait(item)`: `Queue.put(item, block=False)` raises `Full`
when the queue is bounded and full; on success the queue posts itself (its
`id` here) to its pool, if any. -/
def put_nowait (q : MQueue) (item : Nat) : Except PyErr MQueue :=
  if 0 < q.maxsize ∧ q.maxsize ≤ q.items.length then .error .full
  else
    let q1 : MQueue := { q with items := q.items ++ [item] }
    match q1.pool with
    | none => .ok q1
    | some p => .ok { q1 with pool := some (p.put q1.id) }

/-- `MQueue.put(item, block, timeout)`: per its docstring the `block` and
`timeout` arguments are ignored and it simply calls `put_nowait` — it never
blocks (but `put_nowait` can still raise `Full`). -/
def put (q : MQueue) (item : Nat) (_block : Bool) : Except PyErr MQueue :=
  q.put_nowait item

/-- `MQueue.put_empty()`: post to the pool without enqueuing anything.  With
no pool assigned Python dereferences `None` (`AttributeError`). -/
def put_empty (q : MQueue) : Except PyErr MQueue :=
  match q.pool with
  | none => .error .attributeError
  | some p => .ok { q with pool := some (p.put q.id) }

/-- Inherited `Queue.get(block, timeout)`: pop the oldest item; when empty it
raises `Empty` if non-blocking, and otherwise suspends (modelled by the
`wouldBlock` marker, since no other thread runs in the sequential model). -/
def get (q : MQueue) (block : Bool) : Except PyErr (Nat × MQueue) :=
  match q.items with
  | item :: rest => .ok (item, { q with items := rest })
  | [] => if block then .error .wouldBlock else .error .empty

end MQueue

/-- State of a `Channel.Buf`: the declared `size`, the running byte count
`cnt`, the backing `MQueue` `buf`, and the tx-side staging area `tx_buf`
(Python only creates the attribute when `has_tx_buf` is true; here it is kept
as a list that is only touched in that case). -/
structure Buf where
  size : Nat
  cnt : Nat
  buf : MQueue
  has_tx_buf : Bool
  tx_buf : List Nat
deriving DecidableEq

/-- `Channel.Buf.__init__(size, has_tx_buf=...)`. -/
def mkBuf (size : Nat) (has_tx_buf : Bool) : Buf :=
  { size := size, cnt := 0,
    buf := { items := [], maxsize := size, pool := none, id := none },
    has_tx_buf := has_tx_buf, tx_buf := [] }

namespace Buf

/-- The `for i in dat` loop of `Channel.Buf.put`: each byte goes through
`MQueue.put` (which never blocks); on `Full` the handler runs
`assert(not block)`, so a blocking put that meets a full queue raises
`AssertionError` instead of waiting. -/
def putLoop (b : Buf) (dat : List Nat) (block : Bool) (cnt : Nat) :
    Except PyErr (Nat × Buf) :=
  match dat with
  | [] => .ok (cnt, b)
  | i :: rest =>
    match b.buf.put i block with
    | .error _ =>
      -- except Full: assert(not block)
      if block then .error .assertionFailed else .ok (cnt, b)
    | .ok q => putLoop { b with buf := q, cnt := b.cnt + 1 } rest block (cnt + 1)

/-- `Channel.Buf.put(dat, block, timeout) → accepted count`. -/
def put (b : Buf) (dat : List Nat) (block : Bool) : Except PyErr (Nat × Buf) :=
  b.putLoop dat block 0

/-- The `while cnt > 0` loop of `Channel.Buf.get`: pop bytes one at a time,
decrementing `self.cnt` (whose `assert(self.cnt >= 0)` fails if it was
already zero); an `Empty` from a non-blocking pop ends the loop
(`assert(not block)`). -/
def getLoop (b : Buf) (cnt : Nat) (out : List Nat) (block : Bool) :
    Except PyErr (List Nat × Buf) :=
  match cnt with
  | 0 => .ok (out, b)
  | c + 1 =>
    match b.buf.get block with
    | .error .empty =>
      if block then .error .assertionFailed else .ok (out, b)
    | .error e => .error e
    | .ok (dat, q) =>
      if b.cnt = 0 then .error .assertionFailed
      else getLoop { b with buf := q, cnt := b.cnt - 1 } c (out ++ [dat]) block

/-- `Channel.Buf.get(length, block, timeout)`.  On a tx-side buf the drained
bytes are appended to the `tx_buf` staging area and the returned slice is
`tx_buf[base:base+length]`. -/
def get (b : Buf) (length : Nat) (block : Bool) :
    Except PyErr (List Nat × Buf) :=
  match b.getLoop length [] block with
  | .error e => .error e
  | .ok (out, b1) =>
    if b1.has_tx_buf then
      let base := b1.tx_buf.length
      let t := b1.tx_buf ++ out
      .ok ((t.drop base).take length, { b1 with tx_buf := t })
    else .ok (out, b1)

/-- `Channel.Buf.full_ack()`: clear the staging area; when bytes remain queued
(`self.cnt`), `put_empty` pokes the tx worker through the pool. -/
def full_ack (b : Buf) : Except PyErr Buf :=
  let b1 : Buf := { b with tx_buf := [] }
  if b1.cnt ≠ 0 then
    match b1.buf.put_empty with
    | .error e => .error e
    | .ok q => .ok { b1 with buf := q }
  else .ok b1

/-- `Channel.Buf.partial_ack(length)`: drop the first `length` staged bytes
(`self.tx_buf = self.tx_buf[length:]`). -/
def part_ack (b : Buf) (length : Nat) : Buf :=
  { b with tx_buf := b.tx_buf.drop length }

/-- `Channel.Buf.free_size()`: `size - cnt` on Python ints. -/
def free_size (b : Buf) : Int := (b.size : Int) - (b.cnt : Int)

/-- `Channel.Buf.data_size()`. -/
def data_size (b : Buf) : Nat := b.cnt

end Buf

/-- State of a `Channel`: identity, the two bufs, the credit window
`tx_max_bytes` (`none` is Python's `None`, the awaiting-ack sentinel), and the
`rx_stalled` / `ack_done` flags. -/
structure Channel where
  name : String
  num : Nat
  description : String
  rx_buf : Buf
  tx_buf : Buf
  tx_max_bytes : Option Int
  rx_stalled : Bool
  ack_done : Bool
deriving DecidableEq

/-- `Channel.__init__(name=..., num=..., rx_buf_size=..., tx_buf_size=...,
description=...)`. -/
def mkChannel (name : String) (num : Nat) (rx_buf_size tx_buf_size : Nat)
    (description : String) : Channel :=
  { name := name, num := num, description := description,
    rx_buf := mkBuf rx_buf_size false,
    tx_buf := mkBuf tx_buf_size true,
    tx_max_bytes := some (MCom.Frame.MAX_DATA_SIZE : Int),
    rx_stalled := false, ack_done := false }

namespace Channel

/-- The `rx_queue_pool` property setter: binds the rx buf's queue to a pool
and sets its `id` to this channel. -/
def set_rx_queue_pool (c : Channel) (p : MQueuePool) : Channel :=
  { c with rx_buf :=
      { c.rx_buf with buf := { c.rx_buf.buf with pool := some p, id := some c.num } } }

/-- The `tx_queue_pool` property setter. -/
def set_tx_queue_pool (c : Channel) (p : MQueuePool) : Channel :=
  { c with tx_buf :=
      { c.tx_buf with buf := { c.tx_buf.buf with pool := some p, id := some c.num } } }

/-- `Channel._add_to_rx_buf(dat)`: put into `rx_buf` (note: `put` is called
with its default `block=True`); on a shortfall set `rx_stalled` and return
the negated accepted count, otherwise return `free_size()` (setting
`rx_stalled` when it is zero). -/
def add_to_rx_buf (c : Channel) (dat : List Nat) : Except PyErr (Int × Channel) :=
  match c.rx_buf.put dat true with
  | .error e => .error e
  | .ok (cnt, rb) =>
    let c1 : Channel := { c with rx_buf := rb }
    if cnt < dat.length then
      .ok (-(cnt : Int), { c1 with rx_stalled := true })
    else
      let out := rb.free_size
      if out = 0 then .ok (out, { c1 with rx_stalled := true })
      else .ok (out, c1)

/-- `Channel._rx_free_size()`. -/
def rx_free_size (c : Channel) : Int := c.rx_buf.free_size

/-- `Channel._has_tx()`: false while awaiting an ack, else whether bytes are
queued. -/
def has_tx (c : Channel) : Bool :=
  match c.tx_max_bytes with
  | none => false
  | some _ => decide (0 < c.tx_buf.data_size)

/-- `Channel.tx(dat, block, timeout)`: clear `ack_done`, then `tx_buf.put`. -/
def tx (c : Channel) (dat : List Nat) (block : Bool) :
    Except PyErr (Nat × Channel) :=
  let c1 : Channel := { c with ack_done := false }
  match c1.tx_buf.put dat block with
  | .error e => .error e
  | .ok (out, tb) => .ok (out, { c1 with tx_buf := tb })

/-- `Channel._get_from_tx_buf(length=None, block=False)`: default the length
to `tx_max_bytes`, set the awaiting-ack sentinel, and drain `tx_buf` (whose
`assert(length is not None)` fires when both are `None`; a negative length
runs the drain loop zero times, hence `toNat`). -/
def get_from_tx_buf (c : Channel) (length : Option Nat) (block : Bool) :
    Except PyErr (List Nat × Channel) :=
  let length? : Option Int :=
    match length with
    | some l => some (l : Int)
    | none => c.tx_max_bytes
  let c1 : Channel := { c with tx_max_bytes := none }
  match length? with
  | none => .error .assertionFailed
  | some l =>
    match c1.tx_buf.get l.toNat block with
    | .error e => .error e
    | .ok (out, tb) => .ok (out, { c1 with tx_buf := tb })

/-- `Channel._ack_tx(length)`: a positive level grants new credit and clears
the staging area (`full_ack`); otherwise `partial_ack(-length)` drops the
acknowledged prefix and the sentinel is left in place. -/
def ack_tx (c : Channel) (length : Int) : Except PyErr Channel :=
  if length > 0 then
    let c1 : Channel := { c with tx_max_bytes := some length }
    match c1.tx_buf.full_ack with
    | .error e => .error e
    | .ok tb => .ok { c1 with tx_buf := tb }
  else
    .ok { c with tx_buf := c.tx_buf.part_ack (-length).toNat }

end Channel

/-- A channel the way `MCom.open_channel` leaves it (both queue pools bound,
queue ids set to the channel): the starting state for the concrete executions
below. -/
def c7chan0 : Channel :=
  ((mkChannel "test1" 5 4 4 "").set_rx_queue_pool mkMQueuePool).set_tx_queue_pool
    mkMQueuePool

/-- `c7chan0` after `tx(bytes([1,2,3,4]))`: the four bytes sit in the tx queue
and the channel has been posted to the tx pool. -/
def c7afterTx : Channel :=
  { name := "test1", num := 5, description := "",
    rx_buf := { size := 4, cnt := 0,
                buf := { items := [], maxsize := 4,
                         pool := some { with_new_dat := [], e := false }, id := some 5 },
                has_tx_buf := false, tx_buf := [] },
    tx_buf := { size := 4, cnt := 4,
                buf := { items := [1, 2, 3, 4], maxsize := 4,
                         pool := some { with_new_dat := [some 5], e := true }, id := some 5 },
                has_tx_buf := true, tx_buf := [] },
    tx_max_bytes := some 259, rx_stalled := false, ack_done := false }

/-- `c7afterTx` after the tx worker's `_get_from_tx_buf()`: the four bytes have
moved to the pending staging area (`tx_buf.tx_buf`) and the credit is the
awaiting-ack sentinel. -/
def c7pending : Channel :=
  { name := "test1", num := 5, description := "",
    rx_buf := { size := 4, cnt := 0,
                buf := { items := [], maxsize := 4,
                         pool := some { with_new_dat := [], e := false }, id := some 5 },
                has_tx_buf := false, tx_buf := [] },
    tx_buf := { size := 4, cnt := 0,
                buf := { items := [], maxsize := 4,
                         pool := some { with_new_dat := [some 5], e := true }, id := some 5 },
                has_tx_buf := true, tx_buf := [1, 2, 3, 4] },
    tx_max_bytes := none, rx_stalled := false, ack_done := false }

/-- A channel with rx/tx buffer size 4 as `open_channel` leaves it, receiving
side of the `_add_to_rx_buf` executions below. -/
def c5chan : Channel :=
  ((mkChannel "t" 1 4 4 "").set_rx_queue_pool mkMQueuePool).set_tx_queue_pool
    mkMQueuePool

/-- A `Buf` of size 4 already holding four bytes (the state reached by putting
four bytes into a fresh `mkBuf 4`), for the blocking-put-on-full execution. -/
def c1fullBuf : Buf :=
  { size := 4, cnt := 4,
    buf := { items := [10, 20, 30, 40], maxsize := 4, pool := none, id := none },
    has_tx_buf := false, tx_buf := [] }

deriving instance DecidableEq for Except

/-! ### Arithmetic facts about the helper functions -/

theorem bitLengthAux_zero (fuel : Nat) : bitLengthAux fuel 0 = 0 := by
  cases fuel <;> simp [bitLengthAux]

theorem bitLengthAux_congr : ∀ {f1 f2 n : Nat}, n ≤ f1 → n ≤ f2 →
    bitLengthAux f1 n = bitLengthAux f2 n := by
  intro f1
  induction f1 with
  | zero =>
    intro f2 n h1 _
    have : n = 0 := Nat.le_zero.mp h1
    subst this
    rw [bitLengthAux_zero, bitLengthAux_zero]
  | succ f ih =>
    intro f2 n h1 h2
    rcases Nat.eq_zero_or_pos n with hn | hn
    · subst hn; rw [bitLengthAux_zero, bitLengthAux_zero]
    · rcases f2 with _ | f2'
      · omega
      · have hne : n ≠ 0 := by omega
        simp only [bitLengthAux, hne, if_false]
        have hd : n / 2 ≤ f := by omega
        have hd2 : n / 2 ≤ f2' := by omega
        rw [ih hd hd2]

theorem bitLength_rec (n : Nat) :
    bitLength n = if n = 0 then 0 else bitLength (n / 2) + 1 := by
  rcases Nat.eq_zero_or_pos n with hn | hn
  · subst hn; simp [bitLength, bitLengthAux_zero]
  · have hne : n ≠ 0 := by omega
    simp only [hne, if_false, bitLength]
    rcases n with _ | m
    · omega
    · simp only [bitLengthAux, hne, if_false]
      congr 1
      exact bitLengthAux_congr (by omega) (by omega)

theorem bitLength_zero : bitLength 0 = 0 := by rw [bitLength_rec]; simp

theorem bitLength_bounds : ∀ n : Nat, n ≠ 0 →
    2 ^ (bitLength n - 1) ≤ n ∧ n < 2 ^ bitLength n := by
  intro n
  induction n using Nat.strong_induction_on with
  | _ n ih =>
    intro hn
    rw [bitLength_rec, if_neg hn]
    rcases Nat.eq_zero_or_pos (n / 2) with h2 | h2
    · have h1 : n = 1 := by omega
      subst h1
      simp [bitLength_zero]
    · have hlt : n / 2 < n := Nat.div_lt_self (by omega) (by omega)
      have hb := ih (n / 2) hlt (by omega)
      rcases hb with ⟨hlo, hhi⟩
      constructor
      · have h3 : 1 ≤ bitLength (n / 2) := by
          by_contra hc
          have : bitLength (n / 2) = 0 := by omega
          rw [this] at hhi
          omega
        have : bitLength (n / 2) + 1 - 1 = (bitLength (n / 2) - 1) + 1 := by omega
        rw [this, pow_succ]
        omega
      · rw [pow_succ]
        omega

theorem bitLength_lt (n : Nat) : n < 2 ^ bitLength n := by
  rcases Nat.eq_zero_or_pos n with h | h
  · subst h; simp [bitLength_zero]
  · exact (bitLength_bounds n (by omega)).2

theorem bitLength_le_iff {n k : Nat} : bitLength n ≤ k ↔ n < 2 ^ k := by
  constructor
  · intro h
    exact lt_of_lt_of_le (bitLength_lt n) (Nat.pow_le_pow_right (by omega) h)
  · intro h
    rcases Nat.eq_zero_or_pos n with h0 | h0
    · subst h0; simp [bitLength_zero]
    · by_contra hc
      have h1 : k ≤ bitLength n - 1 := by omega
      have h2 := (bitLength_bounds n (by omega)).1
      have h3 : (2 : Nat) ^ k ≤ 2 ^ (bitLength n - 1) :=
        Nat.pow_le_pow_right (by omega) h1
      omega

theorem testBit_topbit {n : Nat} (hn : n ≠ 0) :
    Nat.testBit n (bitLength n - 1) = true := by
  have hb := bitLength_bounds n hn
  have h1 : 1 ≤ bitLength n := by
    by_contra hc
    have : bitLength n = 0 := by omega
    rw [this] at hb
    omega
  have hdiv : n / 2 ^ (bitLength n - 1) = 1 := by
    apply Nat.div_eq_of_lt_le
    · omega
    · have : bitLength n = (bitLength n - 1) + 1 := by omega
      rw [this, pow_succ] at hb
      omega
  rw [Nat.testBit_to_div_mod, hdiv]
  simp

theorem testBit_high_of_bitLength_le {n j : Nat} (h : bitLength n ≤ j) :
    Nat.testBit n j = false := by
  apply Nat.testBit_lt_two_pow
  exact lt_of_lt_of_le (bitLength_lt n) (Nat.pow_le_pow_right (by omega) h)

theorem xorTop_lt_two_pow {n : Nat} (hn : n ≠ 0) :
    n ^^^ (1 <<< (bitLength n - 1)) < 2 ^ (bitLength n - 1) := by
  rw [Nat.one_shiftLeft]
  set t := bitLength n - 1 with ht
  rcases Nat.eq_zero_or_pos (n ^^^ 2 ^ t) with h0 | h0
  · rw [h0]; exact Nat.pos_pow_of_pos t (by omega)
  · apply Nat.lt_of_testBit t
    · rw [Nat.testBit_xor, testBit_topbit hn, Nat.testBit_two_pow_self]
      rfl
    · exact Nat.testBit_two_pow_self
    · intro j hj
      have hne : t ≠ j := by omega
      rw [Nat.testBit_xor, Nat.testBit_two_pow_of_ne hne]
      have hhigh : Nat.testBit n j = false := by
        apply testBit_high_of_bitLength_le
        omega
      rw [hhigh]
      rfl

theorem xorTop_bitLength_lt {n : Nat} (hn : n ≠ 0) :
    bitLength (n ^^^ (1 <<< (bitLength n - 1))) ≤ bitLength n - 1 :=
  bitLength_le_iff.mpr (xorTop_lt_two_pow hn)

theorem testBit_xorTop {n j : Nat} (hj : j ≠ bitLength n - 1) :
    Nat.testBit (n ^^^ (1 <<< (bitLength n - 1))) j = Nat.testBit n j := by
  rw [Nat.one_shiftLeft, Nat.testBit_xor, Nat.testBit_two_pow_of_ne (by omega)]
  cases Nat.testBit n j <;> rfl

theorem mem_chanBitsAux : ∀ (fuel n c : Nat), bitLength n ≤ fuel →
    (c ∈ MCom.chanBitsAux fuel n ↔ Nat.testBit n c = true) := by
  intro fuel
  induction fuel with
  | zero =>
    intro n c h
    have hn : n = 0 := by
      have := bitLength_le_iff.mp h
      simpa using this
    subst hn
    simp [MCom.chanBitsAux]
  | succ f ih =>
    intro n c h
    rcases Nat.eq_zero_or_pos n with hn | hn
    · subst hn; simp [MCom.chanBitsAux]
    · have hne : n ≠ 0 := by omega
      simp only [MCom.chanBitsAux, hne, if_false, List.mem_cons]
      have hrec : bitLength (n ^^^ (1 <<< (bitLength n - 1))) ≤ f := by
        have h1 := xorTop_bitLength_lt hne
        have h2 : 1 ≤ bitLength n := by
          by_contra hc
          have h0 : bitLength n = 0 := by omega
          have := bitLength_le_iff.mp (le_of_eq h0)
          simp at this
          omega
        omega
      rw [ih _ c hrec]
      constructor
      · rintro (rfl | hmem)
        · exact testBit_topbit hne
        · rw [← testBit_xorTop (n := n) (j := c)]
          · exact hmem
          · intro hc
            subst hc
            rw [Nat.one_shiftLeft, Nat.testBit_xor, testBit_topbit hne,
              Nat.testBit_two_pow_self] at hmem
            simp at hmem
      · intro htb
        by_cases hc : c = bitLength n - 1
        · exact Or.inl hc
        · right
          rw [testBit_xorTop hc]
          exact htb

theorem mem_chanBits {n c : Nat} :
    c ∈ MCom.chanBits n ↔ Nat.testBit n c = true :=
  mem_chanBitsAux (bitLength n) n c (le_refl _)

theorem testBit_chanBinlist_foldl : ∀ (l : List Nat) (a j : Nat),
    Nat.testBit (l.foldl (fun binlist chan_num => binlist ||| (1 <<< chan_num)) a) j
      = (Nat.testBit a j || decide (j ∈ l)) := by
  intro l
  induction l with
  | nil => intro a j; simp
  | cons x xs ih =>
    intro a j
    simp only [List.foldl_cons, List.mem_cons]
    rw [ih]
    rw [Nat.testBit_or, Nat.one_shiftLeft, Nat.testBit_two_pow]
    by_cases hx : j = x
    · subst hx; simp
    · have : ¬ (x = j) := fun h => hx h.symm
      simp [hx, this]

theorem testBit_chanBinlist {l : List Nat} {j : Nat} :
    Nat.testBit (MCom.chanBinlist l) j = true ↔ j ∈ l := by
  unfold MCom.chanBinlist
  rw [testBit_chanBinlist_foldl]
  simp

theorem chanBinlist_lt {l : List Nat} {k : Nat} (h : ∀ c ∈ l, c < k) :
    MCom.chanBinlist l < 2 ^ k := by
  unfold MCom.chanBinlist
  suffices hgen : ∀ (l' : List Nat) (a : Nat), (∀ c ∈ l', c < k) → a < 2 ^ k →
      l'.foldl (fun binlist chan_num => binlist ||| (1 <<< chan_num)) a < 2 ^ k by
    exact hgen l 0 h (Nat.two_pow_pos k)
  intro l'
  induction l' with
  | nil => intro a _ ha; simpa using ha
  | cons x xs ih =>
    intro a hl ha
    simp only [List.foldl_cons]
    apply ih
    · intro c hc; exact hl c (List.mem_cons_of_mem _ hc)
    · apply Nat.or_lt_two_pow ha
      rw [Nat.one_shiftLeft]
      exact Nat.pow_lt_pow_right (by omega) (hl x (List.mem_cons_self _ _))

theorem chanBinlist_chanBits (n : Nat) : MCom.chanBinlist (MCom.chanBits n) = n := by
  apply Nat.eq_of_testBit_eq
  intro i
  by_cases h : Nat.testBit n i = true
  · rw [h]
    rw [← mem_chanBits] at h
    exact testBit_chanBinlist.mpr h
  · have h' : Nat.testBit n i = false := by
      cases hx : Nat.testBit n i
      · rfl
      · exact absurd hx h
    rw [h']
    cases hx : Nat.testBit (MCom.chanBinlist (MCom.chanBits n)) i
    · rfl
    · have := testBit_chanBinlist.mp hx
      rw [mem_chanBits] at this
      rw [this] at h'
      exact h'.symm ▸ rfl

theorem fromBytesLE_natToBytesLE : ∀ (w n : Nat), n < 256 ^ w →
    fromBytesLE (natToBytesLE w n) = n := by
  intro w
  induction w with
  | zero =>
    intro n h
    simp only [pow_zero] at h
    interval_cases n
    rfl
  | succ v ih =>
    intro n h
    simp only [natToBytesLE, fromBytesLE]
    rw [ih (n / 256) (by rw [pow_succ] at h; omega)]
    omega

theorem fromBytesLE_replicate_zero : ∀ p : Nat, fromBytesLE (List.replicate p 0) = 0 := by
  intro p
  induction p with
  | zero => rfl
  | succ q ih => simp only [List.replicate, fromBytesLE, ih]

theorem fromBytesLE_append_zeros (bs : List Nat) (p : Nat) :
    fromBytesLE (bs ++ List.replicate p 0) = fromBytesLE bs := by
  induction bs with
  | nil => simp [fromBytesLE, fromBytesLE_replicate_zero]
  | cons b rest ih => simp only [List.cons_append, fromBytesLE, List.append_eq, ih]

theorem natToBytesLE_length (w n : Nat) : (natToBytesLE w n).length = w := by
  induction w generalizing n with
  | zero => rfl
  | succ v ih => simp only [natToBytesLE, List.length_cons, ih]

theorem byte0_decompose : ∀ s : Nat, s < 4 → ∀ c : Nat, c < 64 →
    ((s <<< 6) ||| c) >>> 6 = s ∧ ((s <<< 6) ||| c) &&& 63 = c := by decide

/-! ### Shape of encoded frames -/

theorem mkFrame_small_eq {c : Nat} {d : List Nat} (hc : c < 64) (h3 : d.length ≤ 3) :
    MCom.Frame.mkFrame c d = some
      { chan := c, data_size := d.length, small_frame_size := d.length,
        bytes := ((d.length <<< 6) ||| c) :: (d ++
          List.replicate (if (d.length + 1) % 4 ≠ 0 then 4 - (d.length + 1) % 4 else 0) 0) } := by
  have h259 : d.length < MCom.Frame.MAX_DATA_SIZE := by
    simp only [MCom.Frame.MAX_DATA_SIZE, MCom.Frame.LARGE_FRAME_MIN_DATA_SIZE]
    omega
  have hneg : ¬ ((0:Int) ≤ (d.length : Int) - (MCom.Frame.LARGE_FRAME_MIN_DATA_SIZE : Int)) := by
    simp only [MCom.Frame.LARGE_FRAME_MIN_DATA_SIZE]
    push_cast
    omega
  simp only [MCom.Frame.mkFrame, hc, if_true, h259, hneg, if_false,
    MCom.Frame.DATA_UNIT_SIZE, List.singleton_append, List.length_cons]
  rfl

theorem mkFrame_large_eq {c : Nat} {d : List Nat} (hc : c < 64) (h4 : 4 ≤ d.length)
    (h259 : d.length < 259) :
    MCom.Frame.mkFrame c d = some
      { chan := c, data_size := d.length, small_frame_size := 0,
        bytes := c :: (d.length - 4) :: (d ++
          List.replicate (if (d.length + 2) % 4 ≠ 0 then 4 - (d.length + 2) % 4 else 0) 0) } := by
  have h259' : d.length < MCom.Frame.MAX_DATA_SIZE := by
    simp only [MCom.Frame.MAX_DATA_SIZE, MCom.Frame.LARGE_FRAME_MIN_DATA_SIZE]
    omega
  have hpos : ((0:Int) ≤ (d.length : Int) - ((4 : Nat) : Int)) := by
    push_cast
    omega
  simp only [MCom.Frame.mkFrame, hc, if_true, h259', MCom.Frame.LARGE_FRAME_MIN_DATA_SIZE,
    hpos, if_true, MCom.Frame.DATA_UNIT_SIZE,
    Nat.zero_shiftLeft, Nat.zero_or, List.cons_append, List.nil_append,
    List.length_cons]

theorem fromBytes_mkFrame_data {c : Nat} {d : List Nat} (hc1 : 1 ≤ c) (hc : c < 64)
    (h1 : 1 ≤ d.length) (h259 : d.length < 259) :
    ∃ f, MCom.Frame.mkFrame c d = some f ∧
      MCom.fromBytes f.bytes = some (MCom.Decoded.dataF f) := by
  rcases le_or_lt d.length 3 with h3 | h4
  · refine ⟨_, mkFrame_small_eq hc h3, ?_⟩
    have hb := byte0_decompose d.length (by omega) c hc
    simp only [MCom.fromBytes, List.headD_cons, hb.1, hb.2]
    have hL : ¬ (d.length = 0) := by omega
    have hc0 : ¬ (c = 0) := by omega
    simp only [hL, if_false, hc0, MCom.Frame.SMALL_FRAME_HEADER_SIZE,
      List.drop_succ_cons, List.drop_zero]
    rw [List.take_left' rfl, mkFrame_small_eq hc h3]
    rfl
  · refine ⟨_, mkFrame_large_eq hc (by omega) h259, ?_⟩
    have hb := byte0_decompose 0 (by omega) c hc
    rw [Nat.zero_shiftLeft, Nat.zero_or] at hb
    simp only [MCom.fromBytes, List.headD_cons, hb.1, hb.2]
    have hc0 : ¬ (c = 0) := by omega
    simp only [if_true, hc0, if_false, MCom.Frame.LARGE_FRAME_HEADER_SIZE,
      List.drop_succ_cons, List.drop_zero]
    have hsz : d.length - 4 + MCom.Frame.LARGE_FRAME_MIN_DATA_SIZE = d.length := by
      simp only [MCom.Frame.LARGE_FRAME_MIN_DATA_SIZE]; omega
    simp only [List.getElem?_cons_succ, List.getElem?_cons_zero, Option.map_some', hsz]
    rw [List.take_left' rfl, mkFrame_large_eq hc (by omega) h259]
    rfl

theorem mkAckLikeFrame_eq {ins : Nat} {ac L : Int} (hac0 : 0 ≤ ac) (hac : ac < 64)
    (hL1 : -512 ≤ L) (hL2 : L < 512) :
    MCom.mkAckLikeFrame ins ac L = some
      { ins := ins, ackchan := ac, buf_level := L,
        frame := { chan := 0, data_size := 3, small_frame_size := 3,
                   bytes := [192, ins, ((64 * L + ac) % 65536).toNat % 256,
                     ((64 * L + ac) % 65536).toNat / 256] } } := by
  have hrange : ¬ ((64 * L + ac) < -(2 ^ 15) ∨ ((2:Int) ^ 15) ≤ 64 * L + ac) := by
    push_neg
    norm_num
    omega
  simp only [MCom.mkAckLikeFrame, hrange, if_false]
  rw [mkFrame_small_eq (by omega) (by simp)]
  simp

theorem fromBytesSLE_two (w : Nat) :
    fromBytesSLE [w % 256, w / 256] =
      (if 2 * w ≥ 65536 then (w : Int) - 65536 else (w : Int)) := by
  have hfle : fromBytesLE [w % 256, w / 256] = w := by
    simp only [fromBytesLE]
    omega
  simp only [fromBytesSLE, hfle, List.length_cons, List.length_nil]
  norm_num

theorem ackFrameFromBytes_encoded {ins : Nat} {ac L : Int} (hac0 : 0 ≤ ac)
    (hac : ac < 64) (hL1 : -512 ≤ L) (hL2 : L < 512) :
    MCom.ackFrameFromBytes ins [192, ins, ((64 * L + ac) % 65536).toNat % 256,
        ((64 * L + ac) % 65536).toNat / 256]
      = MCom.mkAckLikeFrame ins ac L := by
  have hcond : ([192, ins, ((64 * L + ac) % 65536).toNat % 256,
      ((64 * L + ac) % 65536).toNat / 256] : List Nat).length = MCom.Frame.DATA_UNIT_SIZE ∧
      ([192, ins, ((64 * L + ac) % 65536).toNat % 256,
      ((64 * L + ac) % 65536).toNat / 256] : List Nat).headD 0 = 0xC0 ∧
      ([192, ins, ((64 * L + ac) % 65536).toNat % 256,
      ((64 * L + ac) % 65536).toNat / 256] : List Nat).getD 1 0 = ins := by
    refine ⟨?_, rfl, rfl⟩
    simp [MCom.Frame.DATA_UNIT_SIZE]
  simp only [MCom.ackFrameFromBytes, hcond, if_true, List.drop_succ_cons, List.drop_zero]
  rw [fromBytesSLE_two]
  have hv : (if 2 * ((64 * L + ac) % 65536).toNat ≥ 65536 then
      ((((64 * L + ac) % 65536).toNat : Nat) : Int) - 65536
      else ((((64 * L + ac) % 65536).toNat : Nat) : Int)) = 64 * L + ac := by
    split_ifs with h
    · omega
    · omega
  rw [hv]
  have hach : (64 * L + ac) % 64 = ac := by omega
  have hLdiv : (64 * L + ac) / 64 = L := by omega
  rw [hach, hLdiv]
  simp

theorem fromBytes_ackRoundtrip {ac L : Int} (hac0 : 0 ≤ ac) (hac : ac < 64)
    (hL1 : -512 ≤ L) (hL2 : L < 512) :
    ∃ a, MCom.mkAckLikeFrame MCom.AckFrame.INS ac L = some a ∧
      MCom.fromBytes a.frame.bytes = some (MCom.Decoded.ackF a) := by
  refine ⟨_, mkAckLikeFrame_eq hac0 hac hL1 hL2, ?_⟩
  have e1 : (192:Nat) >>> 6 = 3 := by decide
  have e2 : (192:Nat) &&& 63 = 0 := by decide
  simp only [MCom.fromBytes, List.headD_cons, e1, e2, MCom.Frame.SMALL_FRAME_HEADER_SIZE,
    MCom.Frame.LARGE_FRAME_HEADER_SIZE, MCom.AckFrame.INS]
  norm_num
  rw [ackFrameFromBytes_encoded hac0 hac hL1 hL2, mkAckLikeFrame_eq hac0 hac hL1 hL2]

theorem fromBytes_resumeRoundtrip {ac L : Int} (hac0 : 0 ≤ ac) (hac : ac < 64)
    (hL1 : -512 ≤ L) (hL2 : L < 512) :
    ∃ a, MCom.mkAckLikeFrame MCom.ResumeFrame.INS ac L = some a ∧
      MCom.fromBytes a.frame.bytes = some (MCom.Decoded.resumeF a) := by
  refine ⟨_, mkAckLikeFrame_eq hac0 hac hL1 hL2, ?_⟩
  have e1 : (192:Nat) >>> 6 = 3 := by decide
  have e2 : (192:Nat) &&& 63 = 0 := by decide
  simp only [MCom.fromBytes, List.headD_cons, e1, e2, MCom.Frame.SMALL_FRAME_HEADER_SIZE,
    MCom.Frame.LARGE_FRAME_HEADER_SIZE, MCom.AckFrame.INS, MCom.ResumeFrame.INS]
  norm_num
  rw [ackFrameFromBytes_encoded hac0 hac hL1 hL2, mkAckLikeFrame_eq hac0 hac hL1 hL2]


theorem chanListFrameFromBytes_small {b0 : Nat} (hb0 : ¬ (b0 = 0)) (rest : List Nat) :
    MCom.chanListFrameFromBytes (b0 :: MCom.ChanListFrame.INS :: rest) =
      MCom.mkChanListFrame (MCom.chanBits (fromBytesLE rest)) := by
  simp only [MCom.chanListFrameFromBytes, List.headD_cons, hb0,
    MCom.Frame.SMALL_FRAME_HEADER_SIZE, MCom.Frame.LARGE_FRAME_HEADER_SIZE,
    List.length_cons, List.getD_cons_succ, List.getD_cons_zero, List.drop_succ_cons,
    List.drop_zero]
  simp only [ne_eq, hb0, not_false_eq_true, if_true, List.getD_cons_succ,
    List.getD_cons_zero, List.drop_succ_cons, List.drop_zero, List.length_cons]
  norm_num

theorem chanListFrameFromBytes_large (b1 : Nat) (rest : List Nat) :
    MCom.chanListFrameFromBytes (0 :: b1 :: MCom.ChanListFrame.INS :: rest) =
      MCom.mkChanListFrame (MCom.chanBits (fromBytesLE rest)) := by
  simp only [MCom.chanListFrameFromBytes, List.headD_cons,
    MCom.Frame.SMALL_FRAME_HEADER_SIZE, MCom.Frame.LARGE_FRAME_HEADER_SIZE,
    List.length_cons, List.getD_cons_succ, List.getD_cons_zero, List.drop_succ_cons,
    List.drop_zero]
  norm_num

theorem fromBytes_chanListReq :
    ∃ f, MCom.mkChanListReqFrame = some f ∧
      MCom.fromBytes f.bytes = some (MCom.Decoded.chanListReqF f) := by
  refine ⟨{ chan := 0, data_size := 1, small_frame_size := 1, bytes := [64, 2, 0, 0] },
    by decide, by decide⟩

theorem fromBytes_chanList {chans : List Nat} (hch : ∀ c ∈ chans, c < 64) :
    ∃ g g', MCom.mkChanListFrame chans = some g ∧
      MCom.fromBytes g.frame.bytes = some (MCom.Decoded.chanListF g') ∧
      (∀ c, c ∈ g'.open_channels_nums ↔ c ∈ chans) := by
  have hn64 : MCom.chanBinlist chans < 2 ^ 64 := chanBinlist_lt hch
  set n := MCom.chanBinlist chans with hn
  have hbl : bitLength n ≤ 64 := bitLength_le_iff.mpr hn64
  set sz := ceildiv (bitLength n) 8 with hsz
  have hsz8 : sz ≤ 8 := by rw [hsz]; unfold ceildiv; omega
  have hbitsz : bitLength n ≤ 8 * sz := by rw [hsz]; unfold ceildiv; omega
  have hnlt : n < 256 ^ sz := by
    have h1 := bitLength_lt n
    have h2 : (2:Nat) ^ (bitLength n) ≤ 2 ^ (8 * sz) := Nat.pow_le_pow_right (by omega) hbitsz
    have h3 : (2:Nat) ^ (8 * sz) = 256 ^ sz := by
      rw [pow_mul]; norm_num
    omega
  have hlen : (MCom.ChanListFrame.INS :: natToBytesLE sz n).length = sz + 1 := by
    simp [natToBytesLE_length]
  have hmem : ∀ c, c ∈ MCom.chanBits n ↔ c ∈ chans := by
    intro c
    rw [mem_chanBits, hn, testBit_chanBinlist]
  have hunfold : MCom.mkChanListFrame chans =
      (MCom.Frame.mkFrame 0 (MCom.ChanListFrame.INS :: natToBytesLE sz n)).map
        (fun f => { open_channels_nums := chans, frame := f }) := rfl
  have hunfold2 : MCom.mkChanListFrame (MCom.chanBits n) =
      (MCom.Frame.mkFrame 0 (MCom.ChanListFrame.INS :: natToBytesLE sz n)).map
        (fun f => { open_channels_nums := MCom.chanBits n, frame := f }) := by
    simp only [MCom.mkChanListFrame, chanBinlist_chanBits]
  rcases le_or_lt sz 2 with hsmall | hlarge
  · have hf := mkFrame_small_eq (c := 0)
      (d := MCom.ChanListFrame.INS :: natToBytesLE sz n) (by omega) (by omega)
    rw [hlen] at hf
    set F : MCom.Frame :=
      { chan := 0, data_size := sz + 1, small_frame_size := sz + 1,
        bytes := ((sz + 1) <<< 6 ||| 0) :: (MCom.ChanListFrame.INS :: natToBytesLE sz n ++
          List.replicate (if (sz + 1 + 1) % 4 ≠ 0 then 4 - (sz + 1 + 1) % 4 else 0) 0) }
      with hF
    refine ⟨⟨chans, F⟩, ⟨MCom.chanBits n, F⟩, ?_, ?_, hmem⟩
    · rw [hunfold, hf]
      rfl
    · show MCom.fromBytes F.bytes = _
      rw [hF]
      have hb := byte0_decompose (sz + 1) (by omega) 0 (by omega)
      have hb0ne : ((sz + 1) <<< 6 ||| 0) ≠ 0 := by
        intro h0
        have h1 := hb.1
        rw [h0] at h1
        simp at h1
      simp only [List.cons_append]
      simp only [MCom.fromBytes, List.headD_cons, hb.1, hb.2]
      norm_num [MCom.AckFrame.INS, MCom.ResumeFrame.INS, MCom.ChanListReqFrame.INS,
        MCom.ChanListFrame.INS, MCom.Frame.SMALL_FRAME_HEADER_SIZE,
        List.getElem?_cons_succ, List.getElem?_cons_zero]
      have hb0ne : ¬ ((sz + 1) <<< 6 = 0) := by
        rw [Nat.shiftLeft_eq]
        positivity
      rw [show ((sz + 1) <<< 6 :: 3 :: (natToBytesLE sz n ++
          List.replicate (if (sz + 1 + 1) % 4 = 0 then 0 else 4 - (sz + 1 + 1) % 4) 0) : List Nat)
        = ((sz + 1) <<< 6 :: MCom.ChanListFrame.INS :: (natToBytesLE sz n ++
          List.replicate (if (sz + 1 + 1) % 4 = 0 then 0 else 4 - (sz + 1 + 1) % 4) 0) : List Nat)
        from rfl]
      rw [chanListFrameFromBytes_small hb0ne, fromBytesLE_append_zeros,
        fromBytesLE_natToBytesLE sz n hnlt, hunfold2, hf]
      simp only [Option.map_some', Nat.or_zero, ne_eq, ite_not]
      rw [hF]
      simp only [Nat.or_zero, ne_eq, ite_not, List.cons_append]
  · have hf := mkFrame_large_eq (c := 0)
      (d := MCom.ChanListFrame.INS :: natToBytesLE sz n) (by omega)
      (by rw [hlen]; omega) (by rw [hlen]; omega)
    rw [hlen] at hf
    set F : MCom.Frame :=
      { chan := 0, data_size := sz + 1, small_frame_size := 0,
        bytes := 0 :: (sz + 1 - 4) :: (MCom.ChanListFrame.INS :: natToBytesLE sz n ++
          List.replicate (if (sz + 1 + 2) % 4 ≠ 0 then 4 - (sz + 1 + 2) % 4 else 0) 0) }
      with hF
    refine ⟨⟨chans, F⟩, ⟨MCom.chanBits n, F⟩, ?_, ?_, hmem⟩
    · rw [hunfold, hf]
      rfl
    · show MCom.fromBytes F.bytes = _
      rw [hF]
      simp only [List.cons_append]
      simp only [MCom.fromBytes, List.headD_cons, Nat.zero_shiftRight, Nat.zero_and]
      norm_num [MCom.AckFrame.INS, MCom.ResumeFrame.INS, MCom.ChanListReqFrame.INS,
        MCom.ChanListFrame.INS, MCom.Frame.LARGE_FRAME_HEADER_SIZE,
        List.getElem?_cons_succ, List.getElem?_cons_zero]
      rw [show ((0 : Nat) :: (sz + 1 - 4) :: 3 :: (natToBytesLE sz n ++
          List.replicate (if (sz + 1 + 2) % 4 = 0 then 0 else 4 - (sz + 1 + 2) % 4) 0) : List Nat)
        = ((0 : Nat) :: (sz + 1 - 4) :: MCom.ChanListFrame.INS :: (natToBytesLE sz n ++
          List.replicate (if (sz + 1 + 2) % 4 = 0 then 0 else 4 - (sz + 1 + 2) % 4) 0) : List Nat)
        from rfl]
      rw [chanListFrameFromBytes_large, fromBytesLE_append_zeros,
        fromBytesLE_natToBytesLE sz n hnlt, hunfold2, hf]
      simp only [Option.map_some', ne_eq, ite_not]
      rw [hF]
      simp only [ne_eq, ite_not, List.cons_append]


theorem MQueuePool_put_put (p : MQueuePool) (q : Option Nat) :
    (p.put q).put q = p.put q := by
  by_cases hq : q ∈ p.with_new_dat
  · simp [MQueuePool.put, hq]
  · simp [MQueuePool.put, hq]

theorem full_ack_idem {b b' : Buf} (h : b.full_ack = .ok b') :
    b'.full_ack = .ok b' := by
  obtain ⟨sz, cnt, ⟨items, ms, pool, qid⟩, htx, txb⟩ := b
  by_cases hcnt : cnt = 0
  · simp [Buf.full_ack, hcnt] at h ⊢
    subst h
    simp [Buf.full_ack, hcnt]
  · cases pool with
    | none => simp [Buf.full_ack, MQueue.put_empty, hcnt] at h
    | some p =>
      simp [Buf.full_ack, MQueue.put_empty, hcnt] at h
      subst h
      simp [Buf.full_ack, MQueue.put_empty, hcnt, MQueuePool_put_put]

/-- C7 (amended): for every channel state and every ack level `n ≥ 0`,
running the ACK handler `_ack_tx(n)` twice leaves the channel exactly as
running it once: a positive level re-grants the credit and `full_ack` (and
the pool post it makes) is idempotent, and `partial_ack(0)` is the identity.
(For `n < 0` it is NOT idempotent — see the counterexample.) -/
theorem ack_tx_nonneg_idem (c : Channel) (n : Int) (hn : 0 ≤ n) :
    (c.ack_tx n).bind (fun c1 => c1.ack_tx n) = c.ack_tx n := by
  rcases eq_or_lt_of_le hn with h0 | hpos
  · have hc : c.ack_tx n = .ok c := by
      rw [← h0]
      rfl
    rw [hc]
    exact hc
  · simp only [Channel.ack_tx, hpos, if_true]
    cases hfa : c.tx_buf.full_ack with
    | error e => simp [hfa, Except.bind]
    | ok tb =>
      simp only [hfa]
      simp [Except.bind, Channel.ack_tx, hpos, full_ack_idem hfa]

theorem ack_tx_nonneg_idem_witness :
    ((0:Int) ≤ 7) ∧
      (((mkChannel "w" 1 4 4 "").ack_tx 7).bind (fun c1 => c1.ack_tx 7)
        = (mkChannel "w" 1 4 4 "").ack_tx 7) :=
  ⟨by decide, ack_tx_nonneg_idem (mkChannel "w" 1 4 4 "") 7 (by decide)⟩

/-- C7 counterexample: on a channel whose pending staging area holds the four
bytes of an already-sent frame (state reached by `tx([1,2,3,4])` followed by
the tx worker's `_get_from_tx_buf()`), the partial-ack handler `_ack_tx(-2)`
applied twice drops four staged bytes instead of two, so a repeated ACK is not
idempotent as the claim states for *every* level. -/
theorem ack_tx_negative_not_idem :
    c7chan0.tx [1, 2, 3, 4] true = .ok (4, c7afterTx)
  ∧ c7afterTx.get_from_tx_buf none false = .ok ([1, 2, 3, 4], c7pending)
  ∧ (c7pending.ack_tx (-2)).map (fun c1 => c1.tx_buf.tx_buf) = .ok [3, 4]
  ∧ ((c7pending.ack_tx (-2)).bind (fun c1 => c1.ack_tx (-2))).map
      (fun c1 => c1.tx_buf.tx_buf) = .ok []
  ∧ ((c7pending.ack_tx (-2)).bind (fun c1 => c1.ack_tx (-2))
      ≠ c7pending.ack_tx (-2)) := by
  refine ⟨by decide, by decide, by decide, by decide, by decide⟩

/-- C8: on a tx-side `Buf`, `partial_ack(k)` followed by `full_ack()` leaves
the buffer (staging area, queue contents, count, pool) in exactly the state
`full_ack()` alone produces: `full_ack` overwrites the staging area that
`partial_ack` trimmed and touches nothing `partial_ack` read. -/
theorem part_ack_then_full_ack (b : Buf) (k : Nat) (_h : b.has_tx_buf = true) :
    (b.part_ack k).full_ack = b.full_ack := rfl

theorem part_ack_then_full_ack_witness :
    (({ size := 4, cnt := 0,
        buf := { items := [], maxsize := 4, pool := none, id := none },
        has_tx_buf := true, tx_buf := [1, 2, 3, 4] } : Buf).has_tx_buf = true)
  ∧ ((({ size := 4, cnt := 0,
         buf := { items := [], maxsize := 4, pool := none, id := none },
         has_tx_buf := true, tx_buf := [1, 2, 3, 4] } : Buf).part_ack 2).full_ack
      = ({ size := 4, cnt := 0,
           buf := { items := [], maxsize := 4, pool := none, id := none },
           has_tx_buf := true, tx_buf := [1, 2, 3, 4] } : Buf).full_ack) :=
  ⟨by decide,
   part_ack_then_full_ack
     { size := 4, cnt := 0,
       buf := { items := [], maxsize := 4, pool := none, id := none },
       has_tx_buf := true, tx_buf := [1, 2, 3, 4] } 2 (by decide)⟩

/-- C1 (code_bug evidence): `Buf.put` accepts bytes one-by-one and returns the
accepted count, stopping at the first refusal in non-blocking mode (first two
conjuncts, matching the claim) — but in blocking mode on a full buffer it does
NOT block: `MQueue.put` ignores `block` and raises `Full`, and `Buf.put`'s
handler `assert(not block)` turns that into an `AssertionError` (last
conjunct, contradicting the claim and the code's own assert). -/
theorem buf_put_blocking_on_full_asserts :
    (mkBuf 4 false).put [10, 20, 30, 40, 50, 60] false = .ok (4, c1fullBuf)
  ∧ c1fullBuf.put [9] false = .ok (0, c1fullBuf)
  ∧ c1fullBuf.put [9] true = .error .assertionFailed := by
  refine ⟨by decide, by decide, by decide⟩

/-- C3 (code_bug evidence): `Frame.__init__` asserts
`data_size < MAX_DATA_SIZE()` strictly, so a 259-byte payload — which the wire
format supports (`byte1 = 255` gives `255 + 4 = 259`) and which
`MAX_DATA_SIZE`'s own docstring ("max size of data sent in one frame" = 259)
promises — is rejected; only up to 258 bytes are accepted.  260 is rejected as
the claim says. -/
theorem frame_max_payload_off_by_one :
    MCom.Frame.MAX_DATA_SIZE = 259
  ∧ (MCom.Frame.mkFrame 1 (List.replicate 258 0)).isSome = true
  ∧ MCom.Frame.mkFrame 1 (List.replicate 259 0) = none
  ∧ MCom.Frame.mkFrame 1 (List.replicate 260 0) = none := by
  refine ⟨by decide, by decide, by decide, by decide⟩

/-- C5 (code_bug evidence): when every byte fits, `_add_to_rx_buf` behaves as
claimed (returns `free_size()`, setting `rx_stalled` when that is zero, first
two conjuncts) — but when the bytes do NOT all fit it never reaches the
`return -cnt` partial-ack branch: `rx_buf.put(dat)` is called with its default
`block=True`, the queue's `Full` trips `assert(not block)`, and the rx worker
gets an `AssertionError` instead of a negative credit (last conjunct). -/
theorem add_to_rx_buf_overflow_asserts :
    (c5chan.add_to_rx_buf [1, 2]).map (fun p => (p.1, p.2.rx_stalled))
      = .ok ((2 : Int), false)
  ∧ ((c5chan.add_to_rx_buf [1, 2]).bind (fun p => p.2.add_to_rx_buf [3, 4])).map
      (fun p => (p.1, p.2.rx_stalled)) = .ok ((0 : Int), true)
  ∧ (c5chan.add_to_rx_buf [1, 2]).bind (fun p => p.2.add_to_rx_buf [3, 4, 5])
      = .error .assertionFailed := by
  refine ⟨by decide, by decide, by decide⟩

/-- C10: a freshly constructed `Channel` (any buffer sizes) starts with
`tx_max_bytes = MAX_DATA_SIZE() = 259` — a real credit, not the awaiting-ack
`None` sentinel — and with `rx_stalled` and `ack_done` both false, so it may
transmit up to 259 bytes before any ACK or RESUME arrives. -/
theorem channel_init_state (name : String) (num rxs txs : Nat) (descr : String) :
    (mkChannel name num rxs txs descr).tx_max_bytes
        = some ((MCom.Frame.MAX_DATA_SIZE : Nat) : Int)
  ∧ MCom.Frame.MAX_DATA_SIZE = 259
  ∧ (mkChannel name num rxs txs descr).tx_max_bytes ≠ none
  ∧ (mkChannel name num rxs txs descr).rx_stalled = false
  ∧ (mkChannel name num rxs txs descr).ack_done = false := by
  refine ⟨rfl, rfl, by simp [mkChannel], rfl, rfl⟩

/-- C9: a 3-byte payload encodes as a single small frame of one 4-byte data
unit; a 4-byte payload encodes as a large frame of two data units whose byte 1
is 0; in general (for the constructor-accepted non-empty payloads) the frame
is large exactly when the payload is at least 4 bytes, and every encoded
frame is padded to a whole multiple of 4 bytes. -/
theorem frame_small_large_boundary :
    (MCom.Frame.mkFrame 1 [1, 2, 3]).map
        (fun f => (f.is_large, f.bytes.length, f.size_data_unit)) = some (false, 4, 1)
  ∧ (MCom.Frame.mkFrame 1 [1, 2, 3, 4]).map
        (fun f => (f.is_large, f.bytes.length, f.size_data_unit, f.bytes.getD 1 7))
        = some (true, 8, 2, 0)
  ∧ (∀ (c : Nat) (d : List Nat), c < 64 → 1 ≤ d.length → d.length < 259 →
        (MCom.Frame.mkFrame c d).map MCom.Frame.is_large
          = some (decide (4 ≤ d.length)))
  ∧ (∀ (c : Nat) (d : List Nat), c < 64 → d.length < 259 →
        (MCom.Frame.mkFrame c d).map (fun f => f.bytes.length % 4) = some 0) := by
  refine ⟨by decide, by decide, ?_, ?_⟩
  · intro c d hc h1 h259
    rcases le_or_lt d.length 3 with h3 | h4
    · rw [mkFrame_small_eq hc h3]
      have e1 : (d.length == 0) = false := by
        rw [beq_eq_false_iff_ne]
        omega
      have e2 : decide (4 ≤ d.length) = false := by
        rw [decide_eq_false_iff_not]
        omega
      simp [MCom.Frame.is_large, Option.map_some', e1, e2]
    · rw [mkFrame_large_eq hc (by omega) h259]
      have e2 : decide (4 ≤ d.length) = true := by
        rw [decide_eq_true_eq]
        omega
      simp [MCom.Frame.is_large, Option.map_some', e2]
  · intro c d hc h259
    rcases le_or_lt d.length 3 with h3 | h4
    · rw [mkFrame_small_eq hc h3]
      simp only [Option.map_some', List.length_cons, List.length_append,
        List.length_replicate, Option.some.injEq]
      split_ifs <;> omega
    · rw [mkFrame_large_eq hc (by omega) h259]
      simp only [Option.map_some', List.length_cons, List.length_append,
        List.length_replicate, Option.some.injEq]
      split_ifs <;> omega

theorem frame_small_large_boundary_witness :
    ((1:Nat) < 64 ∧ 1 ≤ ([9, 9, 9, 9, 9] : List Nat).length ∧
        ([9, 9, 9, 9, 9] : List Nat).length < 259)
  ∧ (MCom.Frame.mkFrame 1 [9, 9, 9, 9, 9]).map MCom.Frame.is_large
      = some (decide (4 ≤ ([9, 9, 9, 9, 9] : List Nat).length))
  ∧ (MCom.Frame.mkFrame 1 [9, 9, 9, 9, 9]).map (fun f => f.bytes.length % 4)
      = some 0 :=
  ⟨by decide,
   frame_small_large_boundary.2.2.1 1 [9, 9, 9, 9, 9] (by decide) (by decide)
     (by decide),
   frame_small_large_boundary.2.2.2 1 [9, 9, 9, 9, 9] (by decide) (by decide)⟩

/-- C2 (amended): encode→decode is the identity on `(chan, payload)` for every
frame type, over the constructor-accepted arguments with the data-frame
payload non-empty: data frames (channel 1..63, payload length 1..258) decode
to an identical frame; ACK and RESUME (ackchan 0..63, level −512..511) decode
to the same `ackchan` and `buf_level`; CHAN_LIST_REQ decodes to itself; and a
CHAN_LIST frame over channels 0..63 decodes to the same *set* of open channel
numbers.  (The empty payload, also accepted by the constructor, is the
exception — see the counterexample.) -/
theorem encode_decode_identity :
    (∀ (c : Nat) (d : List Nat), 1 ≤ c → c < 64 → 1 ≤ d.length → d.length < 259 →
        ∃ f, MCom.Frame.mkFrame c d = some f ∧
          MCom.fromBytes f.bytes = some (MCom.Decoded.dataF f))
  ∧ (∀ ac L : Int, 0 ≤ ac → ac < 64 → -512 ≤ L → L < 512 →
        ∃ a, MCom.mkAckLikeFrame MCom.AckFrame.INS ac L = some a ∧
          MCom.fromBytes a.frame.bytes = some (MCom.Decoded.ackF a))
  ∧ (∀ ac L : Int, 0 ≤ ac → ac < 64 → -512 ≤ L → L < 512 →
        ∃ a, MCom.mkAckLikeFrame MCom.ResumeFrame.INS ac L = some a ∧
          MCom.fromBytes a.frame.bytes = some (MCom.Decoded.resumeF a))
  ∧ (∃ f, MCom.mkChanListReqFrame = some f ∧
        MCom.fromBytes f.bytes = some (MCom.Decoded.chanListReqF f))
  ∧ (∀ chans : List Nat, (∀ c ∈ chans, c < 64) →
        ∃ g g', MCom.mkChanListFrame chans = some g ∧
          MCom.fromBytes g.frame.bytes = some (MCom.Decoded.chanListF g') ∧
          ∀ c, (c ∈ g'.open_channels_nums ↔ c ∈ chans)) :=
  ⟨fun _ _ h1 h2 h3 h4 => fromBytes_mkFrame_data h1 h2 h3 h4,
   fun _ _ h1 h2 h3 h4 => fromBytes_ackRoundtrip h1 h2 h3 h4,
   fun _ _ h1 h2 h3 h4 => fromBytes_resumeRoundtrip h1 h2 h3 h4,
   fromBytes_chanListReq,
   fun _ h => fromBytes_chanList h⟩

theorem encode_decode_identity_witness :
    ((1:Nat) ≤ 1 ∧ (1:Nat) < 64 ∧ 1 ≤ ([42] : List Nat).length ∧
        ([42] : List Nat).length < 259)
  ∧ (∃ f, MCom.Frame.mkFrame 1 [42] = some f ∧
        MCom.fromBytes f.bytes = some (MCom.Decoded.dataF f))
  ∧ (∃ a, MCom.mkAckLikeFrame MCom.AckFrame.INS 2 (-4) = some a ∧
        MCom.fromBytes a.frame.bytes = some (MCom.Decoded.ackF a)) :=
  ⟨by decide,
   encode_decode_identity.1 1 [42] (by decide) (by decide) (by decide) (by decide),
   encode_decode_identity.2.1 2 (-4) (by decide) (by decide) (by decide) (by decide)⟩

/-- C2 counterexample: `Frame(chan=1, data=b'')` passes every constructor
assert, but the empty payload encodes with the large-frame marker
(`bytes = [1,0,0,0]`) and decodes to a data frame whose payload is the two
padding bytes `[0,0]` — the round trip is not the identity on this valid
constructor argument. -/
theorem encode_decode_empty_payload_mangled :
    (MCom.Frame.mkFrame 1 []).map MCom.Frame.bytes = some [1, 0, 0, 0]
  ∧ (MCom.Frame.mkFrame 1 []).bind (fun f => MCom.fromBytes f.bytes)
      = some (MCom.Decoded.dataF
          { chan := 1, data_size := 2, small_frame_size := 2,
            bytes := [129, 0, 0, 0] })
  ∧ ({ chan := 1, data_size := 2, small_frame_size := 2,
       bytes := [129, 0, 0, 0] } : MCom.Frame).data = [0, 0]
  ∧ ([0, 0] : List Nat) ≠ [] := by
  refine ⟨by decide, by decide, by decide, by decide⟩

/-- C4 (amended): the channel-0 control frames ACK, RESUME and CHAN_LIST_REQ
are always encoded as small frames; a CHAN_LIST frame is small exactly when
every open channel number is below 16 (a bitmap of at most two bytes), and is
otherwise a large frame — not "always small" as claimed (see the
counterexample with open set {20}). -/
theorem control_frames_smallness :
    (∀ (ins : Nat) (ac L : Int) (a : MCom.AckFrame),
        MCom.mkAckLikeFrame ins ac L = some a → a.frame.is_large = false)
  ∧ (∀ f, MCom.mkChanListReqFrame = some f → f.is_large = false)
  ∧ (∀ (chans : List Nat) (g : MCom.ChanListFrame), (∀ c ∈ chans, c < 64) →
        MCom.mkChanListFrame chans = some g →
        (g.frame.is_large = false ↔ ∀ c ∈ chans, c < 16)) := by
  refine ⟨?_, ?_, ?_⟩
  · intro ins ac L a h
    simp only [MCom.mkAckLikeFrame] at h
    by_cases hr : (64 * L + ac < -(2 ^ 15) ∨ ((2:Int) ^ 15) ≤ 64 * L + ac)
    · rw [if_pos hr] at h
      exact Option.noConfusion h
    · rw [if_neg hr] at h
      rw [mkFrame_small_eq (by omega) (by simp)] at h
      simp only [Option.map_some'] at h
      cases h
      rfl
  · intro f h
    have hreq : MCom.mkChanListReqFrame = some
        { chan := 0, data_size := 1, small_frame_size := 1,
          bytes := [64, 2, 0, 0] } := by decide
    rw [hreq] at h
    cases h
    rfl
  · intro chans g hch hg
    have hn64 : MCom.chanBinlist chans < 2 ^ 64 := chanBinlist_lt hch
    set n := MCom.chanBinlist chans with hn
    have hbl : bitLength n ≤ 64 := bitLength_le_iff.mpr hn64
    set sz := ceildiv (bitLength n) 8 with hsz
    have h16 : (∀ c ∈ chans, c < 16) ↔ n < 2 ^ 16 := by
      constructor
      · intro h
        rw [hn]
        exact chanBinlist_lt h
      · intro hlt c hcmem
        by_contra hc16
        have h1 : Nat.testBit n c = true := by
          rw [hn]
          exact testBit_chanBinlist.mpr hcmem
        have h2 : Nat.testBit n c = false :=
          Nat.testBit_lt_two_pow
            (lt_of_lt_of_le hlt (Nat.pow_le_pow_right (by omega) (by omega)))
        rw [h1] at h2
        cases h2
    have h16bl : n < 2 ^ 16 ↔ bitLength n ≤ 16 := bitLength_le_iff.symm
    have hsz8 : sz ≤ 8 := by
      rw [hsz]
      unfold ceildiv
      omega
    have hsz2 : sz ≤ 2 ↔ bitLength n ≤ 16 := by
      rw [hsz]
      unfold ceildiv
      omega
    have hunfold : MCom.mkChanListFrame chans =
        (MCom.Frame.mkFrame 0 (MCom.ChanListFrame.INS :: natToBytesLE sz n)).map
          (fun f => { open_channels_nums := chans, frame := f }) := rfl
    rcases le_or_lt sz 2 with hs | hl
    · rw [hunfold, mkFrame_small_eq (by omega)
        (by simp [natToBytesLE_length]; omega)] at hg
      simp only [Option.map_some'] at hg
      cases hg
      have hlarge : ((MCom.ChanListFrame.INS :: natToBytesLE sz n).length == 0)
          = false := by
        rw [beq_eq_false_iff_ne]
        simp [natToBytesLE_length]
      refine iff_of_true ?_ (h16.mpr (h16bl.mpr (hsz2.mp hs)))
      simp [MCom.Frame.is_large, hlarge]
    · rw [hunfold, mkFrame_large_eq (by omega)
        (by simp [natToBytesLE_length]; omega)
        (by simp [natToBytesLE_length]; omega)] at hg
      simp only [Option.map_some'] at hg
      cases hg
      refine iff_of_false ?_ ?_
      · simp [MCom.Frame.is_large]
      · intro hall
        have := hsz2.mpr (h16bl.mp (h16.mp hall))
        omega

theorem control_frames_smallness_witness :
    MCom.mkAckLikeFrame 0 1 5 = some
      { ins := 0, ackchan := 1, buf_level := 5,
        frame := { chan := 0, data_size := 3, small_frame_size := 3,
                   bytes := [192, 0, 65, 1] } }
  ∧ ({ chan := 0, data_size := 3, small_frame_size := 3,
       bytes := [192, 0, 65, 1] } : MCom.Frame).is_large = false
  ∧ (∀ c ∈ ([1] : List Nat), c < 64)
  ∧ MCom.mkChanListFrame [1] = some
      { open_channels_nums := [1],
        frame := { chan := 0, data_size := 2, small_frame_size := 2,
                   bytes := [128, 3, 2, 0] } }
  ∧ (({ open_channels_nums := [1],
        frame := { chan := 0, data_size := 2, small_frame_size := 2,
                   bytes := [128, 3, 2, 0] } } : MCom.ChanListFrame).frame.is_large
        = false ↔ ∀ c ∈ ([1] : List Nat), c < 16) :=
  ⟨by decide,
   control_frames_smallness.1 0 1 5
     { ins := 0, ackchan := 1, buf_level := 5,
       frame := { chan := 0, data_size := 3, small_frame_size := 3,
                  bytes := [192, 0, 65, 1] } } (by decide),
   by decide,
   by decide,
   control_frames_smallness.2.2 [1]
     { open_channels_nums := [1],
       frame := { chan := 0, data_size := 2, small_frame_size := 2,
                  bytes := [128, 3, 2, 0] } } (by decide) (by decide)⟩

/-- C4 counterexample: the CHAN_LIST frame for the open set {20} has a 3-byte
bitmap, hence a 4-byte payload, and is encoded as a LARGE frame — refuting
"for every set of open channel numbers (each in 0..63), the encoded CHAN_LIST
frame is a small frame". -/
theorem chanlist_of_20_is_large :
    (MCom.mkChanListFrame [20]).map (fun g => g.frame.is_large) = some true
  ∧ (∀ c ∈ ([20] : List Nat), c < 64) := by
  refine ⟨by decide, by decide⟩

/-- C6 (amended): `MQueuePool.put` adds the queue to the set `with_new_dat`
(never duplicating an element already present) and sets the event; a
successful `get_queue` removes and returns one element of the set and clears
the event unconditionally — NOT only when the set becomes empty (see the
counterexample); and, under the reachable-state invariant "event set implies
set non-empty", `get_queue` fails with the empty-error exactly when the set is
empty (non-blocking immediately; blocking after the wait elapses, since in
this sequential model no other thread can signal the event). -/
theorem pool_put_get_spec :
    (∀ (p : MQueuePool) (q : Option Nat),
        q ∈ (p.put q).with_new_dat ∧ (p.put q).e = true ∧
          (q ∈ p.with_new_dat → (p.put q).with_new_dat = p.with_new_dat))
  ∧ (∀ (p : MQueuePool) (block : Bool) (q : Option Nat)
        (rest : List (Option Nat)), p.with_new_dat = q :: rest →
        q ∈ p.with_new_dat ∧
          p.get_queue block = .ok (q, { with_new_dat := rest, e := false }))
  ∧ (∀ (p : MQueuePool) (block : Bool), (p.e = true → p.with_new_dat ≠ []) →
        (p.get_queue block = .error .empty ↔ p.with_new_dat = [])) := by
  refine ⟨?_, ?_, ?_⟩
  · intro p q
    by_cases hq : q ∈ p.with_new_dat
    · simp [MQueuePool.put, hq]
    · simp [MQueuePool.put, hq]
  · intro p block q rest h
    obtain ⟨s, e⟩ := p
    simp only at h
    subst h
    simp [MQueuePool.get_queue]
  · intro p block hinv
    obtain ⟨s, e⟩ := p
    cases s with
    | nil =>
      cases e with
      | false => simp [MQueuePool.get_queue]
      | true => exact absurd (hinv rfl) (by simp)
    | cons a t => simp [MQueuePool.get_queue]

theorem pool_put_get_spec_witness :
    (some 3 ∈ ((mkMQueuePool.put (some 3)).with_new_dat) ∧
        (mkMQueuePool.put (some 3)).e = true ∧
        (some 3 ∈ mkMQueuePool.with_new_dat →
          (mkMQueuePool.put (some 3)).with_new_dat = mkMQueuePool.with_new_dat))
  ∧ ((mkMQueuePool.put (some 3)).with_new_dat = some 3 :: [] →
        some 3 ∈ (mkMQueuePool.put (some 3)).with_new_dat ∧
          (mkMQueuePool.put (some 3)).get_queue false
            = .ok (some 3, { with_new_dat := [], e := false }))
  ∧ ((mkMQueuePool.e = true → mkMQueuePool.with_new_dat ≠ []) →
        (mkMQueuePool.get_queue true = .error .empty ↔
          mkMQueuePool.with_new_dat = [])) :=
  ⟨pool_put_get_spec.1 mkMQueuePool (some 3),
   pool_put_get_spec.2.1 (mkMQueuePool.put (some 3)) false (some 3) [],
   pool_put_get_spec.2.2 mkMQueuePool true⟩

/-- C6 counterexample: after `put(q1); put(q2)` the set holds two elements;
`get_queue` pops one and CLEARS the event even though the set does not become
empty — refuting "clears the signal iff S becomes empty". -/
theorem pool_get_clears_signal_with_nonempty_set :
    ((mkMQueuePool.put (some 1)).put (some 2)).get_queue false
      = .ok (some 1, { with_new_dat := [some 2], e := false })
  ∧ ([some 2] : List (Option Nat)) ≠ [] := by
  refine ⟨by decide, by decide⟩
